import Mathlib

/-!
# Verification of `serial_sequence_repeater1.1.py` (Forte-Controller)

Shallow embedding of the single Python source file
`src/Python Script/serial_sequence_repeater1.1.py` and proofs of the
behavioural claims of its specification.

The script's observable behaviour is modelled as pure functions:

* `pySplit` models Python's `str.split()` (split on runs of ASCII
  whitespace, dropping empty pieces);
* `pyUpper` models `str.upper()` on the ASCII letters the script compares
  against (the command keywords are ASCII);
* `pyStrip` models `str.strip()` (trim ASCII whitespace at both ends);
* `strIn needle hay` models Python's substring test `needle in hay`;
* `batchEvents` models the tokenising `while` loop of
  `send_batch_and_wait_done` (lines 44-71): the ordered list of
  observable events it produces (serial writes, malformed notices,
  skip notices);
* `waitDoneFrom` models the handshake `while True` loop (lines 74-83)
  against an input stream of decoded lines, with explicit fuel counting
  loop iterations (the real loop blocks; `none` means "still looping
  after `fuel` reads");
* `mainStart` models the start of `main` (lines 94-104): the `--list`
  early exit and the port-open failure exit.
-/

/-- ASCII whitespace as recognised by Python's `str.split()` / `str.strip()`
(space, tab, newline, carriage return, vertical tab, form feed). -/
def pyIsSpace (c : Char) : Bool :=
  c = ' ' || c = '\t' || c = '\n' || c = '\r' ||
    c = Char.ofNat 11 || c = Char.ofNat 12

/-- Helper for `pySplit`: walk the characters, accumulating the current
word (in reverse) in `acc`. -/
def pySplitAux : List Char → List Char → List String
  | [], acc => if acc = [] then [] else [String.mk acc.reverse]
  | c :: cs, acc =>
    if pyIsSpace c then
      if acc = [] then pySplitAux cs []
      else String.mk acc.reverse :: pySplitAux cs []
    else pySplitAux cs (c :: acc)

/-- Model of Python `s.split()` (no separator argument): split on runs of
whitespace, no empty tokens, leading/trailing whitespace ignored. -/
def pySplit (s : String) : List String :=
  pySplitAux s.data []

/-- Model of Python `s.upper()` for the ASCII range (the script only ever
compares the result against ASCII keyword literals). -/
def pyUpper (s : String) : String :=
  String.mk (s.data.map Char.toUpper)

/-- Model of Python `s.strip()`: trim whitespace at both ends. -/
def pyStrip (s : String) : String :=
  String.mk (((s.data.dropWhile pyIsSpace).reverse.dropWhile pyIsSpace).reverse)

/-- `hasSubstr needle hay`: `needle` occurs as a contiguous substring of
`hay` (on character lists). -/
def hasSubstr (needle : List Char) : List Char → Bool
  | [] => needle.isEmpty
  | c :: t => needle.isPrefixOf (c :: t) || hasSubstr needle t

/-- Model of Python's `needle in hay` substring test. -/
def strIn (needle hay : String) : Bool :=
  hasSubstr needle.data hay.data

/-- One observable event of the tokenising loop of
`send_batch_and_wait_done` (source lines 46-71):

* `sent sub`: `ser.write((sub + "\n").encode())` together with the console
  line `Sent -> sub` (the `ALL` branch writes `b"ALL\n"` and prints
  `Sent -> ALL`, i.e. `sent "ALL"`);
* `malformed tk`: the console line `Malformed {tk} command`, followed by
  `break` (the loop aborts, so this is always the last event);
* `skipped tok`: the console line `Skipping unknown token: {tok}` (the
  original, un-uppercased token), after which the loop continues. -/
inductive Event where
  | sent (sub : String)
  | malformed (tk : String)
  | skipped (tok : String)
deriving DecidableEq, Repr

/-- The membership test `tk in {"A", "T", "L", "D", "P"}` of source
line 52. -/
def isCmdKw (tk : String) : Bool :=
  tk == "A" || tk == "T" || tk == "L" || tk == "D" || tk == "P"

/-- The tokenising `while i < len(tokens)` loop of
`send_batch_and_wait_done` (source lines 45-71), phrased on the suffix of
the token list from the cursor onward.  `tokens[i]`/`tokens[i+1]`/
`tokens[i+2]` become the first/second/third elements of the suffix, the
bound checks `i + 1 < len(tokens)` and `i + 2 < len(tokens)` become the
pattern matches, the cursor increments `i += 1/2/3` become the recursive
calls on the corresponding tails, and `break` ends the list. -/
def batchEvents : List String → List Event
  | [] => []
  | t :: rest =>
    if pyUpper t = "ALL" then Event.sent "ALL" :: batchEvents rest
    else if isCmdKw (pyUpper t) then
      if pyUpper t = "D" then
        match rest with
        | idx :: rest2 => Event.sent ("D " ++ idx) :: batchEvents rest2
        | [] => [Event.malformed "D"]
      else
        match rest with
        | a :: b :: rest3 =>
            Event.sent (pyUpper t ++ " " ++ a ++ " " ++ b) :: batchEvents rest3
        | _ => [Event.malformed (pyUpper t)]
    else Event.skipped t :: batchEvents rest

/-- The sub-commands actually written to the serial port, in order
(projection of the event trace onto `ser.write` calls). -/
def sentOf (es : List Event) : List String :=
  es.filterMap fun e =>
    match e with
    | Event.sent s => some s
    | _ => none

/-- `true` iff the trace contains no `malformed` event, i.e. the tokenising
loop ran to the end of the token list without hitting `break`. -/
def noAbort (es : List Event) : Bool :=
  es.all fun e =>
    match e with
    | Event.malformed _ => false
    | _ => true

/-- Stated from the spec (section 8, property 1), for comparison with the
source-derived `batchEvents`: greedy left-to-right grouping of a token list
that is composed only of valid command tokens (case-insensitively), each
followed by its required number of argument tokens — two for `A`/`T`/`L`/`P`,
one for `D`, none for `ALL`.  Returns `none` when the token list is not
well-formed in that sense, otherwise the list of grouped sub-commands.
`isTwoArgKw` is its test for the two-argument keywords `A`/`T`/`L`/`P`. -/
def isTwoArgKw (tk : String) : Bool :=
  tk == "A" || tk == "T" || tk == "L" || tk == "P"

def greedySpec : List String → Option (List String)
  | [] => some []
  | t :: rest =>
    if pyUpper t = "ALL" then (greedySpec rest).map (fun subs => "ALL" :: subs)
    else if pyUpper t = "D" then
      match rest with
      | idx :: rest2 =>
          (greedySpec rest2).map (fun subs => ("D " ++ idx) :: subs)
      | [] => none
    else if isTwoArgKw (pyUpper t) then
      match rest with
      | a :: b :: rest3 =>
          (greedySpec rest3).map
            (fun subs => (pyUpper t ++ " " ++ a ++ " " ++ b) :: subs)
      | _ => none
    else none

/-- One read iteration's test of the handshake loop, at position `m` of the
stream: the line (after `strip()`) is non-empty and contains `"DONE"`
(source line 78 and 81). -/
def doneAt (stream : ℕ → String) (m : ℕ) : Prop :=
  pyStrip (stream m) ≠ "" ∧ strIn "DONE" (pyStrip (stream m)) = true

instance (stream : ℕ → String) (m : ℕ) : Decidable (doneAt stream m) :=
  inferInstanceAs (Decidable (_ ∧ _))

/-- The handshake `while True` loop of `send_batch_and_wait_done` (source
lines 74-83), run against a stream of decoded line texts (`stream pos` is
what the `pos`-th `ser.readline().decode(errors='ignore')` call yields;
the model applies the `.strip()`).  `fuel` bounds the number of loop
iterations: the real loop has no exit besides the `break` on a `DONE`
line, so `none` means the loop is still running after `fuel` reads.
On `break` it returns the list of non-empty lines that were printed and
appended to `buffer` (the `DONE` line last) and the index of the first
unread stream position. -/
def waitDoneFrom (stream : ℕ → String) : ℕ → ℕ → Option (List String × ℕ)
  | 0, _ => none
  | fuel + 1, pos =>
    let line := pyStrip (stream pos)
    if line = "" then waitDoneFrom stream fuel (pos + 1)
    else if strIn "DONE" line then some ([line], pos + 1)
    else (waitDoneFrom stream fuel (pos + 1)).map
      (fun r => (line :: r.1, r.2))

/-- Full model of `send_batch_and_wait_done` (source lines 43-83): first
the tokenising loop over `cmd_group.split()` produces the event trace,
then the handshake loop runs.  The pair is (event trace of the send
phase, result of the handshake phase). -/
def send_batch_and_wait_done (cmd_group : String) (stream : ℕ → String)
    (fuel : ℕ) : List Event × Option (List String × ℕ) :=
  (batchEvents (pySplit cmd_group), waitDoneFrom stream fuel 0)

/-- Outcome of the start of `main` (source lines 94-104): either the
process exits with a code (and possibly an error message printed last),
or it proceeds into the command-sending part. -/
inductive MainOutcome where
  | exit (code : ℕ) (errMsg : Option String)
  | runLoop
deriving DecidableEq, Repr

/-- The start of `main` (source lines 94-104): if `--list` was given,
enumerate ports and `sys.exit(0)` — before any `Serial(...)` call, so the
open result is never consulted; otherwise attempt to open the port:
on `SerialException e`, print `Error opening {port}: {e}` and
`sys.exit(1)`; on success proceed to the command loops.
`openResult` stands for the outcome of the `Serial(args.port, ...)`
constructor: `.error e` is a raised `SerialException` with message `e`. -/
def mainStart (listFlag : Bool) (port : String)
    (openResult : Except String Unit) : MainOutcome :=
  if listFlag then MainOutcome.exit 0 none
  else
    match openResult with
    | Except.error e =>
        MainOutcome.exit 1 (some ("Error opening " ++ port ++ ": " ++ e))
    | Except.ok _ => MainOutcome.runLoop

/-- One iteration of the tokenising `while` loop, in the cursor phrasing
of the source (lines 46-71): given the token list and the cursor `i`
(with the loop guard `i < len(tokens)` assumed by the caller), return
`some j` where `j` is the cursor after the iteration, or `none` when the
iteration executes `break`. -/
def loopStep (tokens : List String) (i : ℕ) : Option ℕ :=
  if pyUpper (tokens.getD i "") = "ALL" then some (i + 1)
  else if isCmdKw (pyUpper (tokens.getD i "")) then
    if pyUpper (tokens.getD i "") = "D" then
      if i + 1 < tokens.length then some (i + 2) else none
    else
      if i + 2 < tokens.length then some (i + 3) else none
  else some (i + 1)

/-- Number of iterations the tokenising loop performs from cursor `i`
until it exits (via the guard `i < len(tokens)` failing, counted as 0
further iterations, or via `break`, counted as 1).  `fuel` bounds the
iterations counted; `none` means the count did not settle within `fuel`
iterations. -/
def loopIters (tokens : List String) : ℕ → ℕ → Option ℕ
  | 0, _ => none
  | fuel + 1, i =>
    if i < tokens.length then
      match loopStep tokens i with
      | none => some 1
      | some j => (loopIters tokens fuel j).map (fun n => n + 1)
    else some 0

theorem isCmdKw_cases (tk : String) (h : isCmdKw tk = true) :
    tk = "A" ∨ tk = "T" ∨ tk = "L" ∨ tk = "D" ∨ tk = "P" := by
  simp only [isCmdKw, Bool.or_eq_true, beq_iff_eq] at h
  tauto

/-! ## Lemmas about the cursor phrasing of the loop -/

theorem loopIters_zero (tokens : List String) (i : ℕ) :
    loopIters tokens 0 i = none := rfl

theorem loopIters_succ (tokens : List String) (fuel i : ℕ) :
    loopIters tokens (fuel + 1) i =
      if i < tokens.length then
        match loopStep tokens i with
        | none => some 1
        | some j => (loopIters tokens fuel j).map (fun n => n + 1)
      else some 0 := rfl

/-- Every loop iteration that does not `break` advances the cursor by
exactly 1, 2 or 3. -/
theorem loopStep_advance (tokens : List String) (i j : ℕ)
    (h : loopStep tokens i = some j) :
    j = i + 1 ∨ j = i + 2 ∨ j = i + 3 := by
  unfold loopStep at h
  split_ifs at h <;> simp only [Option.some.injEq] at h <;> omega

/-- From cursor `i`, the loop exits within `tokens.length - i` iterations
and any fuel beyond that bound suffices to observe the exit. -/
theorem loopIters_bounded (tokens : List String) :
    ∀ fuel i : ℕ, tokens.length - i < fuel →
      ∃ n, loopIters tokens fuel i = some n ∧ n ≤ tokens.length - i := by
  intro fuel
  induction fuel with
  | zero => intro i hi; omega
  | succ f ih =>
    intro i hi
    by_cases hlt : i < tokens.length
    · cases hstep : loopStep tokens i with
      | none =>
        refine ⟨1, ?_, by omega⟩
        rw [loopIters_succ, if_pos hlt, hstep]
      | some j =>
        have hj := loopStep_advance tokens i j hstep
        obtain ⟨n, hn, hle⟩ := ih j (by omega)
        refine ⟨n + 1, ?_, by omega⟩
        rw [loopIters_succ, if_pos hlt, hstep]
        show (loopIters tokens f j).map (fun n => n + 1) = some (n + 1)
        rw [hn, Option.map_some']
    · exact ⟨0, by rw [loopIters_succ, if_neg hlt], by omega⟩

example : greedySpec (pySplit "P 2 0 P 1 0 P 0 0") =
    some ["P 2 0", "P 1 0", "P 0 0"] := by decide

example : greedySpec (pySplit "XYZ P 1 5") = none := by decide

example : greedySpec (pySplit "P 2") = none := by decide

example : waitDoneFrom (fun n => if n = 0 then "hi" else "xDONEy") 3 0 =
    some (["hi", "xDONEy"], 2) := by decide

example : waitDoneFrom (fun _ => "nothing") 4 0 = none := by decide

example : loopIters ["P", "2", "0", "D"] 5 0 = some 2 := by decide

example : batchEvents (pySplit "P 2 0 P 1 0 P 0 0") =
    [Event.sent "P 2 0", Event.sent "P 1 0", Event.sent "P 0 0"] := by decide

example : batchEvents (pySplit "XYZ P 1 5") =
    [Event.skipped "XYZ", Event.sent "P 1 5"] := by decide

example : batchEvents (pySplit "p P x") = [Event.sent "P P x"] := by decide

example : batchEvents (pySplit "D") = [Event.malformed "D"] := by decide

example : batchEvents (pySplit "P 2") = [Event.malformed "P"] := by decide

example : batchEvents (pySplit "all D 3") =
    [Event.sent "ALL", Event.sent "D 3"] := by decide

example : strIn "DONE" "xxDONEyy" = true := by decide

example : strIn "DONE" "DON" = false := by decide

example : pyStrip "  ab c \n" = "ab c" := by decide

/-! ## Unfolding lemmas

The recursive definitions above pattern-match on list shapes; the
following equations (all definitional) expose one loop iteration for each
possible shape of the remaining token list. -/

theorem batchEvents_nil : batchEvents [] = [] := rfl

theorem batchEvents_one (t : String) :
    batchEvents [t] =
      if pyUpper t = "ALL" then [Event.sent "ALL"]
      else if isCmdKw (pyUpper t) then
        if pyUpper t = "D" then [Event.malformed "D"]
        else [Event.malformed (pyUpper t)]
      else [Event.skipped t] := rfl

theorem batchEvents_two (t a : String) :
    batchEvents [t, a] =
      if pyUpper t = "ALL" then Event.sent "ALL" :: batchEvents [a]
      else if isCmdKw (pyUpper t) then
        if pyUpper t = "D" then [Event.sent ("D " ++ a)]
        else [Event.malformed (pyUpper t)]
      else Event.skipped t :: batchEvents [a] := rfl

theorem batchEvents_cons3 (t a b : String) (rest : List String) :
    batchEvents (t :: a :: b :: rest) =
      if pyUpper t = "ALL" then Event.sent "ALL" :: batchEvents (a :: b :: rest)
      else if isCmdKw (pyUpper t) then
        if pyUpper t = "D" then Event.sent ("D " ++ a) :: batchEvents (b :: rest)
        else Event.sent (pyUpper t ++ " " ++ a ++ " " ++ b) :: batchEvents rest
      else Event.skipped t :: batchEvents (a :: b :: rest) := rfl

/-- The `ALL` branch (source lines 48-51). -/
theorem batchEvents_all_case (t : String) (rest : List String)
    (h : pyUpper t = "ALL") :
    batchEvents (t :: rest) = Event.sent "ALL" :: batchEvents rest := by
  rcases rest with _ | ⟨a, _ | ⟨b, rs⟩⟩
  · rw [batchEvents_one, if_pos h]; rfl
  · rw [batchEvents_two, if_pos h]
  · rw [batchEvents_cons3, if_pos h]

/-- The well-formed `D` branch (source lines 53-56). -/
theorem batchEvents_dump_case (t idx : String) (rest : List String)
    (hd : pyUpper t = "D") :
    batchEvents (t :: idx :: rest)
      = Event.sent ("D " ++ idx) :: batchEvents rest := by
  have hall : ¬ pyUpper t = "ALL" := by rw [hd]; decide
  have hk : isCmdKw (pyUpper t) = true := by rw [hd]; decide
  rcases rest with _ | ⟨b, rs⟩
  · rw [batchEvents_two, if_neg hall, if_pos hk, if_pos hd]; rfl
  · rw [batchEvents_cons3, if_neg hall, if_pos hk, if_pos hd]

/-- The malformed `D` branch (source lines 57-59): `D` is the last token. -/
theorem batchEvents_dump_mal (t : String) (hd : pyUpper t = "D") :
    batchEvents [t] = [Event.malformed "D"] := by
  have hall : ¬ pyUpper t = "ALL" := by rw [hd]; decide
  have hk : isCmdKw (pyUpper t) = true := by rw [hd]; decide
  rw [batchEvents_one, if_neg hall, if_pos hk, if_pos hd]

/-- The well-formed `A`/`T`/`L`/`P` branch (source lines 61-63). -/
theorem batchEvents_two_arg_case (t a b : String) (rest : List String)
    (hk : isCmdKw (pyUpper t) = true) (hnd : pyUpper t ≠ "D") :
    batchEvents (t :: a :: b :: rest)
      = Event.sent (pyUpper t ++ " " ++ a ++ " " ++ b) :: batchEvents rest := by
  have hall : ¬ pyUpper t = "ALL" := by
    intro e; rw [e] at hk; exact absurd hk (by decide)
  rw [batchEvents_cons3, if_neg hall, if_pos hk, if_neg hnd]

/-- The malformed `A`/`T`/`L`/`P` branch (source lines 64-66), with the
keyword as last token. -/
theorem batchEvents_two_arg_mal_one (t : String)
    (hk : isCmdKw (pyUpper t) = true) (hnd : pyUpper t ≠ "D") :
    batchEvents [t] = [Event.malformed (pyUpper t)] := by
  have hall : ¬ pyUpper t = "ALL" := by
    intro e; rw [e] at hk; exact absurd hk (by decide)
  rw [batchEvents_one, if_neg hall, if_pos hk, if_neg hnd]

/-- The malformed `A`/`T`/`L`/`P` branch (source lines 64-66), with the
keyword followed by a single token. -/
theorem batchEvents_two_arg_mal_two (t a : String)
    (hk : isCmdKw (pyUpper t) = true) (hnd : pyUpper t ≠ "D") :
    batchEvents [t, a] = [Event.malformed (pyUpper t)] := by
  have hall : ¬ pyUpper t = "ALL" := by
    intro e; rw [e] at hk; exact absurd hk (by decide)
  rw [batchEvents_two, if_neg hall, if_pos hk, if_neg hnd]

/-- The unknown-token branch (source lines 69-71). -/
theorem batchEvents_skip_case (t : String) (rest : List String)
    (hall : pyUpper t ≠ "ALL") (hk : isCmdKw (pyUpper t) = false) :
    batchEvents (t :: rest) = Event.skipped t :: batchEvents rest := by
  have hk' : ¬ isCmdKw (pyUpper t) = true := by simp [hk]
  rcases rest with _ | ⟨a, _ | ⟨b, rs⟩⟩
  · rw [batchEvents_one, if_neg hall, if_neg hk']; rfl
  · rw [batchEvents_two, if_neg hall, if_neg hk']
  · rw [batchEvents_cons3, if_neg hall, if_neg hk']

theorem greedySpec_nil : greedySpec [] = some [] := rfl

theorem greedySpec_one (t : String) :
    greedySpec [t] =
      if pyUpper t = "ALL" then
        (greedySpec []).map (fun subs => "ALL" :: subs)
      else if pyUpper t = "D" then none
      else if isTwoArgKw (pyUpper t) then none
      else none := rfl

theorem greedySpec_two (t a : String) :
    greedySpec [t, a] =
      if pyUpper t = "ALL" then
        (greedySpec [a]).map (fun subs => "ALL" :: subs)
      else if pyUpper t = "D" then
        (greedySpec []).map (fun subs => ("D " ++ a) :: subs)
      else if isTwoArgKw (pyUpper t) then none
      else none := rfl

theorem greedySpec_cons3 (t a b : String) (rest : List String) :
    greedySpec (t :: a :: b :: rest) =
      if pyUpper t = "ALL" then
        (greedySpec (a :: b :: rest)).map (fun subs => "ALL" :: subs)
      else if pyUpper t = "D" then
        (greedySpec (b :: rest)).map (fun subs => ("D " ++ a) :: subs)
      else if isTwoArgKw (pyUpper t) then
        (greedySpec rest).map
          (fun subs => (pyUpper t ++ " " ++ a ++ " " ++ b) :: subs)
      else none := rfl

theorem isCmdKw_of_isTwoArgKw (tk : String) (h : isTwoArgKw tk = true) :
    isCmdKw tk = true := by
  simp only [isTwoArgKw, Bool.or_eq_true, beq_iff_eq] at h
  rcases h with ((h | h) | h) | h <;> rw [h] <;> decide

theorem ne_all_of_isTwoArgKw (tk : String) (h : isTwoArgKw tk = true) :
    tk ≠ "ALL" := by
  intro e; rw [e] at h; exact absurd h (by decide)

theorem ne_dump_of_isTwoArgKw (tk : String) (h : isTwoArgKw tk = true) :
    tk ≠ "D" := by
  intro e; rw [e] at h; exact absurd h (by decide)

theorem greedySpec_all_case (t : String) (rest : List String)
    (h : pyUpper t = "ALL") :
    greedySpec (t :: rest)
      = (greedySpec rest).map (fun subs => "ALL" :: subs) := by
  rcases rest with _ | ⟨a, _ | ⟨b, rs⟩⟩
  · rw [greedySpec_one, if_pos h]
  · rw [greedySpec_two, if_pos h]
  · rw [greedySpec_cons3, if_pos h]

theorem greedySpec_dump_case (t idx : String) (rest : List String)
    (hd : pyUpper t = "D") :
    greedySpec (t :: idx :: rest)
      = (greedySpec rest).map (fun subs => ("D " ++ idx) :: subs) := by
  have hall : ¬ pyUpper t = "ALL" := by rw [hd]; decide
  rcases rest with _ | ⟨b, rs⟩
  · rw [greedySpec_two, if_neg hall, if_pos hd]
  · rw [greedySpec_cons3, if_neg hall, if_pos hd]

theorem greedySpec_dump_mal (t : String) (hd : pyUpper t = "D") :
    greedySpec [t] = none := by
  have hall : ¬ pyUpper t = "ALL" := by rw [hd]; decide
  rw [greedySpec_one, if_neg hall, if_pos hd]

theorem greedySpec_two_arg_case (t a b : String) (rest : List String)
    (hk : isTwoArgKw (pyUpper t) = true) :
    greedySpec (t :: a :: b :: rest)
      = (greedySpec rest).map
          (fun subs => (pyUpper t ++ " " ++ a ++ " " ++ b) :: subs) := by
  rw [greedySpec_cons3, if_neg (ne_all_of_isTwoArgKw _ hk),
    if_neg (ne_dump_of_isTwoArgKw _ hk), if_pos hk]

theorem greedySpec_two_arg_mal_one (t : String)
    (hk : isTwoArgKw (pyUpper t) = true) :
    greedySpec [t] = none := by
  rw [greedySpec_one, if_neg (ne_all_of_isTwoArgKw _ hk),
    if_neg (ne_dump_of_isTwoArgKw _ hk), if_pos hk]

theorem greedySpec_two_arg_mal_two (t a : String)
    (hk : isTwoArgKw (pyUpper t) = true) :
    greedySpec [t, a] = none := by
  rw [greedySpec_two, if_neg (ne_all_of_isTwoArgKw _ hk),
    if_neg (ne_dump_of_isTwoArgKw _ hk), if_pos hk]

theorem greedySpec_unknown_case (t : String) (rest : List String)
    (hall : pyUpper t ≠ "ALL") (hnd : pyUpper t ≠ "D")
    (hk : ¬ isTwoArgKw (pyUpper t) = true) :
    greedySpec (t :: rest) = none := by
  rcases rest with _ | ⟨a, _ | ⟨b, rs⟩⟩
  · rw [greedySpec_one, if_neg hall, if_neg hnd, if_neg hk]
  · rw [greedySpec_two, if_neg hall, if_neg hnd, if_neg hk]
  · rw [greedySpec_cons3, if_neg hall, if_neg hnd, if_neg hk]

/-- On a token list that the spec's greedy grouping accepts, the
tokenising loop emits exactly the grouped sub-commands, in order, with no
skips and no aborts. -/
theorem batchEvents_of_greedySpec :
    ∀ toks subs : List String,
      greedySpec toks = some subs →
      batchEvents toks = subs.map Event.sent := by
  intro toks
  induction toks using greedySpec.induct with
  | case1 =>
    intro subs h
    rw [greedySpec_nil] at h
    cases h
    exact batchEvents_nil
  | case2 t rest htk ih =>
    intro subs h
    rw [greedySpec_all_case t rest htk] at h
    rcases Option.map_eq_some'.mp h with ⟨subs', hs', rfl⟩
    rw [batchEvents_all_case t rest htk, ih subs' hs', List.map_cons]
  | case3 t hall hd idx rest2 ih =>
    intro subs h
    rw [greedySpec_dump_case t idx rest2 hd] at h
    rcases Option.map_eq_some'.mp h with ⟨subs', hs', rfl⟩
    rw [batchEvents_dump_case t idx rest2 hd, ih subs' hs', List.map_cons]
  | case4 t hall hd =>
    intro subs h
    rw [greedySpec_dump_mal t hd] at h
    exact absurd h (by simp)
  | case5 t hall hnd hk a b rest3 ih =>
    intro subs h
    rw [greedySpec_two_arg_case t a b rest3 hk] at h
    rcases Option.map_eq_some'.mp h with ⟨subs', hs', rfl⟩
    rw [batchEvents_two_arg_case t a b rest3 (isCmdKw_of_isTwoArgKw _ hk) hnd,
      ih subs' hs', List.map_cons]
  | case6 t rest hall hnd hk hshape =>
    intro subs h
    rcases rest with _ | ⟨a, _ | ⟨b, rs⟩⟩
    · rw [greedySpec_two_arg_mal_one t hk] at h
      exact absurd h (by simp)
    · rw [greedySpec_two_arg_mal_two t a hk] at h
      exact absurd h (by simp)
    · exact absurd rfl (hshape a b rs)
  | case7 t rest hall hnd hk =>
    intro subs h
    rw [greedySpec_unknown_case t rest hall hnd hk] at h
    exact absurd h (by simp)

/-! ## Lemmas about the handshake loop -/

theorem waitDoneFrom_zero (stream : ℕ → String) (pos : ℕ) :
    waitDoneFrom stream 0 pos = none := rfl

theorem waitDoneFrom_succ (stream : ℕ → String) (fuel pos : ℕ) :
    waitDoneFrom stream (fuel + 1) pos =
      if pyStrip (stream pos) = "" then waitDoneFrom stream fuel (pos + 1)
      else if strIn "DONE" (pyStrip (stream pos)) then
        some ([pyStrip (stream pos)], pos + 1)
      else (waitDoneFrom stream fuel (pos + 1)).map
        (fun r => (pyStrip (stream pos) :: r.1, r.2)) := rfl

/-- Splitting off the first position of the non-empty-line log over a
window of `k + 1` stream positions starting at `pos`. -/
theorem logShift (stream : ℕ → String) (pos k : ℕ) :
    ((List.range (k + 1)).map fun m => pyStrip (stream (pos + m))).filter
        (fun l => l ≠ "")
      = (if pyStrip (stream pos) = "" then ([] : List String)
          else [pyStrip (stream pos)])
        ++ ((List.range k).map fun m => pyStrip (stream (pos + 1 + m))).filter
            (fun l => l ≠ "") := by
  rw [List.range_succ_eq_map, List.map_cons, List.map_map, List.filter_cons,
    Nat.add_zero]
  have hfun : ((fun m => pyStrip (stream (pos + m))) ∘ Nat.succ)
      = fun m => pyStrip (stream (pos + 1 + m)) := by
    funext m
    simp only [Function.comp_apply]
    congr 2
    omega
  rw [hfun]
  by_cases hp : pyStrip (stream pos) = ""
  · rw [if_pos hp, if_neg (by simp [hp]), List.nil_append]
  · rw [if_neg hp, if_pos (by simp [hp]), List.singleton_append]

/-- If positions `pos, …, pos + k - 1` of the stream fail the `DONE` test
and position `pos + k` passes it, the handshake loop started at `pos` with
more than `k` iterations of fuel stops exactly after consuming position
`pos + k`, having logged every non-empty stripped line on the way. -/
theorem waitDoneFrom_found (stream : ℕ → String) :
    ∀ k pos fuel : ℕ, (∀ m, m < k → ¬ doneAt stream (pos + m)) →
      doneAt stream (pos + k) → k < fuel →
      waitDoneFrom stream fuel pos =
        some (((List.range k).map fun m => pyStrip (stream (pos + m))).filter
            (fun l => l ≠ "") ++ [pyStrip (stream (pos + k))],
          pos + k + 1) := by
  intro k
  induction k with
  | zero =>
    intro pos fuel hb hd hf
    obtain ⟨f, rfl⟩ : ∃ f, fuel = f + 1 := ⟨fuel - 1, by omega⟩
    rw [Nat.add_zero] at hd
    rw [waitDoneFrom_succ, if_neg hd.1, if_pos hd.2]
    simp
  | succ k ih =>
    intro pos fuel hb hd hf
    obtain ⟨f, rfl⟩ : ∃ f, fuel = f + 1 := ⟨fuel - 1, by omega⟩
    have hb0 : ¬ doneAt stream pos := by
      have h0 := hb 0 (by omega)
      rwa [Nat.add_zero] at h0
    have hbs : ∀ m, m < k → ¬ doneAt stream (pos + 1 + m) := by
      intro m hm
      have hs := hb (m + 1) (by omega)
      rwa [show pos + (m + 1) = pos + 1 + m from by omega] at hs
    have hds : doneAt stream (pos + 1 + k) := by
      rwa [show pos + (k + 1) = pos + 1 + k from by omega] at hd
    have hrec := ih (pos + 1) f hbs hds (by omega)
    by_cases hline : pyStrip (stream pos) = ""
    · rw [waitDoneFrom_succ, if_pos hline, hrec,
        show pos + (k + 1) = pos + 1 + k from by omega,
        logShift, if_pos hline, List.nil_append]
    · have hnd : ¬ strIn "DONE" (pyStrip (stream pos)) = true := by
        intro hc
        exact hb0 ⟨hline, hc⟩
      rw [waitDoneFrom_succ, if_neg hline, if_neg hnd, hrec,
        Option.map_some', show pos + (k + 1) = pos + 1 + k from by omega,
        logShift, if_neg hline, List.singleton_append]
      simp

/-! ## Lemmas about the tokenising loop -/

theorem sentOf_append (xs ys : List Event) :
    sentOf (xs ++ ys) = sentOf xs ++ sentOf ys :=
  List.filterMap_append xs ys _

theorem noAbort_cons_sent (s : String) (es : List Event) :
    noAbort (Event.sent s :: es) = noAbort es := by
  simp [noAbort]

theorem noAbort_cons_skipped (s : String) (es : List Event) :
    noAbort (Event.skipped s :: es) = noAbort es := by
  simp [noAbort]

/-- If the tokenising loop runs through `pre` without hitting the
malformed-command `break`, then its cursor reaches exactly the boundary
behind `pre`, and the trace on `pre ++ suf` is the trace on `pre`
followed by the trace on `suf`. -/
theorem batchEvents_append (pre suf : List String)
    (h : noAbort (batchEvents pre) = true) :
    batchEvents (pre ++ suf) = batchEvents pre ++ batchEvents suf := by
  induction pre using batchEvents.induct with
  | case1 => simp [batchEvents_nil]
  | case2 t rest htk ih =>
    rw [batchEvents_all_case t rest htk] at h
    rw [noAbort_cons_sent] at h
    simp only [List.cons_append, batchEvents_all_case _ _ htk, ih h,
      batchEvents_all_case t rest htk]
  | case3 t hall hmem hd idx rest2 ih =>
    rw [batchEvents_dump_case t idx rest2 hd, noAbort_cons_sent] at h
    simp only [List.cons_append, batchEvents_dump_case _ _ _ hd, ih h,
      batchEvents_dump_case t idx rest2 hd]
  | case4 t hall hmem hd =>
    rw [batchEvents_dump_mal t hd] at h
    simp [noAbort] at h
  | case5 t hall hmem hd a b rest3 ih =>
    rw [batchEvents_two_arg_case t a b rest3 hmem hd, noAbort_cons_sent] at h
    simp only [List.cons_append, batchEvents_two_arg_case _ _ _ _ hmem hd,
      ih h, batchEvents_two_arg_case t a b rest3 hmem hd]
  | case6 t rest hall hmem hd hshape =>
    rcases rest with _ | ⟨a, _ | ⟨b, rs⟩⟩
    · rw [batchEvents_two_arg_mal_one t hmem hd] at h
      simp [noAbort] at h
    · rw [batchEvents_two_arg_mal_two t a hmem hd] at h
      simp [noAbort] at h
    · exact absurd rfl (hshape a b rs)
  | case7 t rest hall hmem ih =>
    have hk : isCmdKw (pyUpper t) = false := by
      simpa using hmem
    rw [batchEvents_skip_case t rest hall hk, noAbort_cons_skipped] at h
    simp only [List.cons_append, batchEvents_skip_case _ _ hall hk, ih h,
      batchEvents_skip_case t rest hall hk]

/-! ## Case-insensitivity and keyword-shape lemmas -/

/-- The trace of one loop iteration depends on the head token only through
its uppercased form, as far as the written sub-commands are concerned. -/
theorem sentOf_cons_congr (t t' : String) (suf : List String)
    (h : pyUpper t = pyUpper t') :
    sentOf (batchEvents (t :: suf)) = sentOf (batchEvents (t' :: suf)) := by
  by_cases h1 : pyUpper t = "ALL"
  · rw [batchEvents_all_case t suf h1,
      batchEvents_all_case t' suf (h.symm.trans h1)]
  · by_cases h2 : isCmdKw (pyUpper t) = true
    · by_cases h3 : pyUpper t = "D"
      · rcases suf with _ | ⟨a, rs⟩
        · rw [batchEvents_dump_mal t h3,
            batchEvents_dump_mal t' (h.symm.trans h3)]
        · rw [batchEvents_dump_case t a rs h3,
            batchEvents_dump_case t' a rs (h.symm.trans h3)]
      · have h2t : isCmdKw (pyUpper t') = true := by rw [← h]; exact h2
        have h3t : pyUpper t' ≠ "D" := fun e => h3 (h.trans e)
        rcases suf with _ | ⟨a, _ | ⟨b, rs⟩⟩
        · rw [batchEvents_two_arg_mal_one t h2 h3,
            batchEvents_two_arg_mal_one t' h2t h3t]
          simp [sentOf]
        · rw [batchEvents_two_arg_mal_two t a h2 h3,
            batchEvents_two_arg_mal_two t' a h2t h3t]
          simp [sentOf]
        · rw [batchEvents_two_arg_case t a b rs h2 h3,
            batchEvents_two_arg_case t' a b rs h2t h3t, h]
    · have h2' : isCmdKw (pyUpper t) = false := by simpa using h2
      have h2'' : isCmdKw (pyUpper t') = false := by rw [← h]; exact h2'
      rw [batchEvents_skip_case t suf h1 h2',
        batchEvents_skip_case t' suf (fun e => h1 (h.trans e)) h2'']
      simp [sentOf]

/-- Every sub-command the loop ever writes starts with one of the six
keywords, in uppercase, followed by its verbatim argument tokens. -/
theorem sent_shape :
    ∀ (toks : List String) (sub : String),
      Event.sent sub ∈ batchEvents toks →
      sub = "ALL" ∨ (∃ idx, sub = "D " ++ idx)
        ∨ ∃ k idx v, (k = "A" ∨ k = "T" ∨ k = "L" ∨ k = "P")
            ∧ sub = k ++ " " ++ idx ++ " " ++ v := by
  intro toks
  induction toks using batchEvents.induct with
  | case1 =>
    intro sub h
    rw [batchEvents_nil] at h
    simp at h
  | case2 t rest htk ih =>
    intro sub h
    rw [batchEvents_all_case t rest htk] at h
    rcases List.mem_cons.mp h with he | hm
    · exact Or.inl (Event.sent.inj he)
    · exact ih sub hm
  | case3 t hall hmem hd idx rest2 ih =>
    intro sub h
    rw [batchEvents_dump_case t idx rest2 hd] at h
    rcases List.mem_cons.mp h with he | hm
    · exact Or.inr (Or.inl ⟨idx, Event.sent.inj he⟩)
    · exact ih sub hm
  | case4 t hall hmem hd =>
    intro sub h
    rw [batchEvents_dump_mal t hd] at h
    simp at h
  | case5 t hall hmem hd a b rest3 ih =>
    intro sub h
    rw [batchEvents_two_arg_case t a b rest3 hmem hd] at h
    rcases List.mem_cons.mp h with he | hm
    · rcases isCmdKw_cases _ hmem with h4 | h4 | h4 | h4 | h4
      · exact Or.inr (Or.inr ⟨pyUpper t, a, b, Or.inl h4, Event.sent.inj he⟩)
      · exact Or.inr (Or.inr ⟨pyUpper t, a, b, Or.inr (Or.inl h4),
          Event.sent.inj he⟩)
      · exact Or.inr (Or.inr ⟨pyUpper t, a, b, Or.inr (Or.inr (Or.inl h4)),
          Event.sent.inj he⟩)
      · exact absurd h4 hd
      · exact Or.inr (Or.inr ⟨pyUpper t, a, b, Or.inr (Or.inr (Or.inr h4)),
          Event.sent.inj he⟩)
    · exact ih sub hm
  | case6 t rest hall hmem hd hshape =>
    intro sub h
    rcases rest with _ | ⟨a, _ | ⟨b, rs⟩⟩
    · rw [batchEvents_two_arg_mal_one t hmem hd] at h
      simp at h
    · rw [batchEvents_two_arg_mal_two t a hmem hd] at h
      simp at h
    · exact absurd rfl (hshape a b rs)
  | case7 t rest hall hmem ih =>
    intro sub h
    have hk : isCmdKw (pyUpper t) = false := by simpa using hmem
    rw [batchEvents_skip_case t rest hall hk] at h
    rcases List.mem_cons.mp h with he | hm
    · simp at he
    · exact ih sub hm

/-! ## Claims -/

/-- C1: for every batch string composed only of valid command tokens
(`A`, `T`, `L`, `P`, `D`, `ALL`, case-insensitively), each followed by its
required number of argument tokens (two for `A`/`T`/`L`/`P`, one for `D`,
none for `ALL`), the tokenizer of `send_batch_and_wait_done` emits exactly
the sequence of sub-commands obtained by greedily grouping, left to right,
each recognized token with its required argument count, in order, with no
tokens dropped and no extra sub-commands emitted.  (Well-formedness and
the greedy grouping are captured by the spec-derived `greedySpec`.) -/
theorem claim_C1_greedy_tokenization (batch : String) (subs : List String)
    (h : greedySpec (pySplit batch) = some subs) :
    batchEvents (pySplit batch) = subs.map Event.sent :=
  batchEvents_of_greedySpec (pySplit batch) subs h

theorem claim_C1_witness :
    greedySpec (pySplit "P 2 0 P 1 0 P 0 0")
        = some ["P 2 0", "P 1 0", "P 0 0"]
      ∧ batchEvents (pySplit "P 2 0 P 1 0 P 0 0")
        = (["P 2 0", "P 1 0", "P 0 0"]).map Event.sent :=
  ⟨by decide,
    claim_C1_greedy_tokenization "P 2 0 P 1 0 P 0 0"
      ["P 2 0", "P 1 0", "P 0 0"] (by decide)⟩

/-- C2: if the cursor of the tokenising loop reaches (expressed by: the
tokens split as `pre ++ t :: rest` and the loop runs through `pre`
without aborting) an `A`/`T`/`L`/`P` token not followed by two further
tokens, or a `D` token not followed by one further token, then a
malformed-command notice is the last event, no sub-command is emitted for
that token, no tokens after it are parsed, everything sent before stays
sent, and the handshake wait still runs afterwards. -/
theorem claim_C2_malformed_aborts (batch : String) (pre : List String)
    (t : String) (rest : List String) (stream : ℕ → String) (fuel : ℕ)
    (hsplit : pySplit batch = pre ++ t :: rest)
    (hpre : noAbort (batchEvents pre) = true)
    (hmal : (isTwoArgKw (pyUpper t) = true ∧ rest.length < 2)
      ∨ (pyUpper t = "D" ∧ rest = [])) :
    (send_batch_and_wait_done batch stream fuel).1
        = batchEvents pre ++ [Event.malformed (pyUpper t)]
      ∧ (send_batch_and_wait_done batch stream fuel).2
        = waitDoneFrom stream fuel 0 := by
  constructor
  · show batchEvents (pySplit batch) = _
    rw [hsplit, batchEvents_append pre (t :: rest) hpre]
    congr 1
    rcases hmal with ⟨hk, hlen⟩ | ⟨hd, rfl⟩
    · rcases rest with _ | ⟨a, _ | ⟨b, rs⟩⟩
      · exact batchEvents_two_arg_mal_one t (isCmdKw_of_isTwoArgKw _ hk)
          (ne_dump_of_isTwoArgKw _ hk)
      · exact batchEvents_two_arg_mal_two t a (isCmdKw_of_isTwoArgKw _ hk)
          (ne_dump_of_isTwoArgKw _ hk)
      · exact absurd hlen (by simp)
    · rw [batchEvents_dump_mal t hd, hd]
  · rfl

theorem claim_C2_witness :
    (send_batch_and_wait_done "P 2" (fun _ => "DONE") 1).1
        = batchEvents [] ++ [Event.malformed (pyUpper "P")]
      ∧ (send_batch_and_wait_done "P 2" (fun _ => "DONE") 1).2
        = waitDoneFrom (fun _ => "DONE") 1 0 :=
  claim_C2_malformed_aborts "P 2" [] "P" ["2"] (fun _ => "DONE") 1
    (by decide) (by decide) (Or.inl ⟨by decide, by decide⟩)

/-- C3: when the cursor is at a token whose uppercase form is neither
`ALL` nor one of `A`/`T`/`L`/`D`/`P`, a skipping notice is emitted, the
cursor advances by exactly one token and parsing continues (never
aborts); in particular `"XYZ P 1 5"` yields exactly the single
sub-command `"P 1 5"`. -/
theorem claim_C3_unknown_token_skipped :
    (∀ (t : String) (rest : List String),
        pyUpper t ≠ "ALL" → isCmdKw (pyUpper t) = false →
        batchEvents (t :: rest) = Event.skipped t :: batchEvents rest)
    ∧ batchEvents (pySplit "XYZ P 1 5")
        = [Event.skipped "XYZ", Event.sent "P 1 5"] :=
  ⟨batchEvents_skip_case, by decide⟩

theorem claim_C3_witness :
    batchEvents ("XYZ" :: ["P", "1", "5"])
      = Event.skipped "XYZ" :: batchEvents ["P", "1", "5"] :=
  claim_C3_unknown_token_skipped.1 "XYZ" ["P", "1", "5"]
    (by decide) (by decide)

/-- C4: if the first line of the read stream whose stripped text is
non-empty and contains `"DONE"` sits at position `n`, the handshake wait
returns exactly once, immediately after consuming position `n` (the next
unread position is `n + 1`), having consumed and logged every non-empty
line before it — for any fuel large enough to reach that point. -/
theorem claim_C4_handshake_returns (stream : ℕ → String) (n fuel : ℕ)
    (hb : ∀ m, m < n → ¬ doneAt stream m) (hd : doneAt stream n)
    (hf : n < fuel) :
    waitDoneFrom stream fuel 0 =
      some (((List.range n).map fun m => pyStrip (stream m)).filter
          (fun l => l ≠ "") ++ [pyStrip (stream n)], n + 1) := by
  have h := waitDoneFrom_found stream n 0 fuel
    (by simpa using hb) (by simpa using hd) hf
  simpa using h

theorem claim_C4_witness :
    waitDoneFrom
        (fun k => if k = 0 then " " else if k = 1 then "hello" else "xDONEy")
        5 0
      = some (["hello", "xDONEy"], 3) := by
  have h := claim_C4_handshake_returns
    (fun k => if k = 0 then " " else if k = 1 then "hello" else "xDONEy")
    2 5 (by decide) (by decide) (by omega)
  rw [h]
  decide

/-- C5: the handshake wait never returns without having read a line
containing `"DONE"`: on a stream in which no line passes the `DONE` test,
the loop is still running after any number of iterations (there is no
timeout, retry limit, or other exit condition). -/
theorem claim_C5_handshake_never_exits (stream : ℕ → String)
    (h : ∀ m, ¬ doneAt stream m) (fuel pos : ℕ) :
    waitDoneFrom stream fuel pos = none := by
  induction fuel generalizing pos with
  | zero => rfl
  | succ f ih =>
    by_cases hline : pyStrip (stream pos) = ""
    · rw [waitDoneFrom_succ, if_pos hline, ih]
    · have hnd : ¬ strIn "DONE" (pyStrip (stream pos)) = true := by
        intro hc
        exact h pos ⟨hline, hc⟩
      rw [waitDoneFrom_succ, if_neg hline, if_neg hnd, ih]
      rfl

theorem claim_C5_witness :
    waitDoneFrom (fun _ => "hello") 7 0 = none :=
  claim_C5_handshake_never_exits (fun _ => "hello")
    (by
      intro m hc
      have hs : strIn "DONE" (pyStrip "hello") = true := hc.2
      exact absurd hs (by decide)) 7 0

/-- C6: command-token matching is case-insensitive and the emitted
keyword is normalized to uppercase.  First: replacing a token the cursor
reaches by any spelling with the same uppercase form leaves the emitted
sub-command sequence unchanged.  Second: every emitted sub-command starts
with one of the uppercase keywords `ALL`, `A`, `T`, `L`, `D`, `P`. -/
theorem claim_C6_case_insensitive :
    (∀ (pre : List String) (t t' : String) (suf : List String),
        noAbort (batchEvents pre) = true → pyUpper t = pyUpper t' →
        sentOf (batchEvents (pre ++ t :: suf))
          = sentOf (batchEvents (pre ++ t' :: suf)))
    ∧ ∀ (toks : List String) (sub : String),
        Event.sent sub ∈ batchEvents toks →
        sub = "ALL" ∨ (∃ idx, sub = "D " ++ idx)
          ∨ ∃ k idx v, (k = "A" ∨ k = "T" ∨ k = "L" ∨ k = "P")
              ∧ sub = k ++ " " ++ idx ++ " " ++ v := by
  constructor
  · intro pre t t' suf hpre h
    rw [batchEvents_append pre (t :: suf) hpre,
      batchEvents_append pre (t' :: suf) hpre,
      sentOf_append, sentOf_append, sentOf_cons_congr t t' suf h]
  · exact sent_shape

theorem claim_C6_witness :
    sentOf (batchEvents (["ALL"] ++ "p" :: ["1", "5"]))
      = sentOf (batchEvents (["ALL"] ++ "P" :: ["1", "5"])) :=
  claim_C6_case_insensitive.1 ["ALL"] "p" "P" ["1", "5"]
    (by decide) (by decide)

/-- C7: the emitted event trace (and hence the sub-command sequence) is a
pure, deterministic function of the batch text: it does not depend on the
serial input stream or on how long the handshake later runs, so two runs
on the same batch string emit the same sequence. -/
theorem claim_C7_tokenization_pure (batch : String)
    (stream1 stream2 : ℕ → String) (fuel1 fuel2 : ℕ) :
    (send_batch_and_wait_done batch stream1 fuel1).1
      = (send_batch_and_wait_done batch stream2 fuel2).1 := rfl

/-- C8: `main` exits with code 0 after `--list` (whatever the port-open
outcome would have been — the port is never opened), and exits with code
1, reporting the device error message, when opening the serial port
fails. -/
theorem claim_C8_exit_codes :
    (∀ (port : String) (r : Except String Unit),
        mainStart true port r = MainOutcome.exit 0 none)
    ∧ ∀ port e : String,
        mainStart false port (Except.error e)
          = MainOutcome.exit 1
              (some ("Error opening " ++ port ++ ": " ++ e)) :=
  ⟨fun _ _ => rfl, fun _ _ => rfl⟩

/-- C9: the tokenising loop terminates on every finite token list: every
iteration that does not `break` advances the cursor by exactly 1, 2 or 3,
and the loop exits within as many iterations as there are tokens. -/
theorem claim_C9_loop_terminates :
    (∀ (tokens : List String) (i j : ℕ), loopStep tokens i = some j →
        j = i + 1 ∨ j = i + 2 ∨ j = i + 3)
    ∧ ∀ tokens : List String, ∃ n,
        loopIters tokens (tokens.length + 1) 0 = some n
          ∧ n ≤ tokens.length := by
  constructor
  · exact loopStep_advance
  · intro tokens
    obtain ⟨n, hn, hle⟩ :=
      loopIters_bounded tokens (tokens.length + 1) 0 (by omega)
    exact ⟨n, hn, by omega⟩

theorem claim_C9_witness :
    (1 = 0 + 1 ∨ 1 = 0 + 2 ∨ 1 = 0 + 3)
      ∧ ∃ n, loopIters ["P", "2", "0"] 4 0 = some n ∧ n ≤ 3 :=
  ⟨claim_C9_loop_terminates.1 ["ALL"] 0 1 (by decide),
    claim_C9_loop_terminates.2 ["P", "2", "0"]⟩

/-- C10: argument tokens are never validated or normalized: the two
tokens following an `A`/`T`/`L`/`P` keyword (and the one token following
`D`) are consumed and emitted verbatim, whatever their content or case;
in particular `"p P x"` emits the single sub-command `"P P x"`. -/
theorem claim_C10_args_verbatim :
    (∀ (t a b : String) (rest : List String),
        isCmdKw (pyUpper t) = true → pyUpper t ≠ "D" →
        batchEvents (t :: a :: b :: rest)
          = Event.sent (pyUpper t ++ " " ++ a ++ " " ++ b)
              :: batchEvents rest)
    ∧ (∀ (t idx : String) (rest : List String), pyUpper t = "D" →
        batchEvents (t :: idx :: rest)
          = Event.sent ("D " ++ idx) :: batchEvents rest)
    ∧ sentOf (batchEvents (pySplit "p P x")) = ["P P x"] :=
  ⟨batchEvents_two_arg_case, batchEvents_dump_case, by decide⟩

theorem claim_C10_witness :
    batchEvents ["p", "D", "all"]
      = Event.sent (pyUpper "p" ++ " " ++ "D" ++ " " ++ "all")
          :: batchEvents [] :=
  claim_C10_args_verbatim.1 "p" "D" "all" [] (by decide) (by decide)
